import Mathlib

/-!
Verification development for the GNAT planner of
`src/ompl/geometric/planners/gnat/GNAT.h`.

The header file fully defines the accessor functions (`setGoalBias`,
`getGoalBias`, `setRange`, `getRange`), the two distance functions and the
`Motion` record; those are embedded here directly from the source.  The
bodies of `setup`, `solve`, `addMotion`, `selectMotion` and `clear` are
only declared in the header; the corresponding definitions below are
modelled from the specification, as their doc comments indicate.
Machine doubles are modelled as rationals where the code only stores,
compares and returns them, and as reals where the code computes norms.
-/

namespace GNAT

/-- Planner parameter record holding the two `double` members of the class:
`goalBias_` (GNAT.h line 219) and `maxDistance_` (line 222). -/
structure Params where
  goalBias_ : ℚ
  maxDistance_ : ℚ
deriving DecidableEq, Repr

/-- Embeds `GNAT::setGoalBias` (GNAT.h lines 106-109): `goalBias_ = goalBias;`
with no validation or clamping. -/
def setGoalBias (s : Params) (goalBias : ℚ) : Params :=
  { s with goalBias_ := goalBias }

/-- Embeds `GNAT::getGoalBias` (GNAT.h lines 112-115): returns `goalBias_`. -/
def getGoalBias (s : Params) : ℚ :=
  s.goalBias_

/-- Embeds `GNAT::setRange` (GNAT.h lines 122-125): `maxDistance_ = distance;`
with no validation. -/
def setRange (s : Params) (distance : ℚ) : Params :=
  { s with maxDistance_ := distance }

/-- Embeds `GNAT::getRange` (GNAT.h lines 128-131): returns `maxDistance_`. -/
def getRange (s : Params) : ℚ :=
  s.maxDistance_

/-- Embeds the `Motion` record (GNAT.h lines 159-181): a state together with
a pointer to the parent motion.  The parent pointer is modelled as an index
into the arena of all motions held by the planner (NULL pointer = `none`),
following the arena representation suggested in section 9 of the spec. -/
structure Motion (σ : Type) where
  state : σ
  parent : Option ℕ
deriving DecidableEq, Repr

/-- Modelled from the spec: the exploration tree `tree_` (GNAT.h line 216,
a `NearestNeighborsGNATSampler<Motion*>` whose implementation is not in the
source).  Sections 3 and 4.1 of the spec describe it as the set of all
inserted motions with their parent links; it is represented as the arena
list of motions in insertion order. -/
structure PlannerState (σ : Type) where
  tree_ : List (Motion σ)
deriving DecidableEq, Repr

/-- Modelled from the spec: the external collaborators consumed by
`GNAT::solve` (whose body is not in the source, GNAT.h line 95), per spec
section 6: validity predicate, segment validity check, goal test, optional
goal sampler, validity-respecting near sampler (may fail), the spatial
index biased draw, the `rng_.uniform01()` stream and the termination
oracle, all indexed by iteration number where they are stateful. -/
structure SolveEnv (σ : Type) where
  isValid : σ → Bool
  segmentValid : σ → σ → Bool
  goalSatisfied : σ → Bool
  goalAvailable : Bool
  sampleGoal : ℕ → σ
  sampleNear : σ → ℕ → Option σ
  sampleBiased : ℕ → ℕ
  uniform01 : ℕ → ℚ
  ptc : ℕ → Bool

/-- Modelled from the spec (section 4.4 step 1): the seed-selection step of
iteration `i` attempts a goal-directed sample exactly when a goal sampler
is available and the uniform draw falls below the goal bias. -/
def goalAttempt (env : SolveEnv σ) (gb : ℚ) (i : ℕ) : Bool :=
  env.goalAvailable && decide (env.uniform01 i < gb)

/-- Modelled from the spec (section 4.3): the biased draw returns an
existing node; the raw draw is reduced modulo the index size to name a
live arena slot. -/
def seedIndexAt (env : SolveEnv σ) (s : PlannerState σ) (i : ℕ) : ℕ :=
  env.sampleBiased i % s.tree_.length

/-- Modelled from the spec: the seed motion of iteration `i`, if the index
is non-empty. -/
def seedAt (env : SolveEnv σ) (s : PlannerState σ) (i : ℕ) : Option (Motion σ) :=
  s.tree_[seedIndexAt env s i]?

/-- Modelled from the spec (section 4.4 steps 1-2): the candidate
configuration of iteration `i`: a goal-region draw on a goal attempt,
otherwise the output of the validity-respecting sampler near the seed
(`none` when the sampler is exhausted). -/
def candidateAt (env : SolveEnv σ) (gb : ℚ) (s : PlannerState σ) (i : ℕ) : Option σ :=
  if goalAttempt env gb i then some (env.sampleGoal i)
  else
    match seedAt env s i with
    | some seed => env.sampleNear seed.state i
    | none => none

/-- Modelled from the spec (section 4.4 steps 2-4): the motion inserted by
iteration `i`, if any: the candidate must exist, be a valid state, and the
segment from the seed to it must be valid; the new motion's parent is the
seed's arena index. -/
def stepResult (env : SolveEnv σ) (gb : ℚ) (s : PlannerState σ) (i : ℕ) :
    Option (Motion σ) :=
  match seedAt env s i with
  | none => none
  | some seed =>
    match candidateAt env gb s i with
    | none => none
    | some c =>
      if env.isValid c && env.segmentValid seed.state c then
        some ⟨c, some (seedIndexAt env s i)⟩
      else none

/-- Modelled from the spec: the body of `GNAT::addMotion` (only declared at
GNAT.h line 204).  Spec section 4.1: it creates a node linked to a parent
already present and inserts it into the index; in the arena model this
appends the motion. -/
def addMotion (s : PlannerState σ) (m : Motion σ) : PlannerState σ :=
  ⟨s.tree_ ++ [m]⟩

/-- Modelled from the spec (section 4.4 step 4): one complete iteration of
the expansion loop acting on the planner state: insert the validated
motion, or leave the state untouched on a rejection. -/
def step (env : SolveEnv σ) (gb : ℚ) (s : PlannerState σ) (i : ℕ) : PlannerState σ :=
  match stepResult env gb s i with
  | some m => addMotion s m
  | none => s

/-- Modelled from the spec (section 4.4 step 5): iteration `i` solves the
problem when it inserts a motion whose state satisfies the goal test. -/
def solvedAt (env : SolveEnv σ) (gb : ℚ) (s : PlannerState σ) (i : ℕ) : Bool :=
  match stepResult env gb s i with
  | some m => env.goalSatisfied m.state
  | none => false

/-- Modelled from the spec: running iterations `j, j+1, ..., j+n-1` of the
expansion loop (ignoring termination and goal checks). -/
def runFrom (env : SolveEnv σ) (gb : ℚ) : ℕ → ℕ → PlannerState σ → PlannerState σ
  | _, 0, s => s
  | j, n + 1, s => runFrom env gb (j + 1) n (step env gb s j)

/-- Modelled from the spec: the list of motions inserted by iterations
`j, j+1, ..., j+n-1`, in insertion order. -/
def insertedFrom (env : SolveEnv σ) (gb : ℚ) : ℕ → ℕ → PlannerState σ → List (Motion σ)
  | _, 0, _ => []
  | j, n + 1, s =>
      (stepResult env gb s j).toList ++ insertedFrom env gb (j + 1) n (step env gb s j)

/-- Modelled from the spec (section 4.1 `pathTo`): walk parent links from a
node, then emit states root-first; fuelled by the arena size, which
suffices on well-formed arenas. -/
def pathToAux (t : List (Motion σ)) : ℕ → ℕ → List σ
  | 0, _ => []
  | fuel + 1, j =>
    match t[j]? with
    | none => []
    | some m =>
      match m.parent with
      | none => [m.state]
      | some p => pathToAux t fuel p ++ [m.state]

/-- Modelled from the spec: the extracted path of the node at index `j`. -/
def pathTo (t : List (Motion σ)) (j : ℕ) : List σ :=
  pathToAux t t.length j

/-- Modelled from the spec: the observable outcome of a call to `solve`:
a solution path, exit by the termination oracle, exhaustion of the
modelling fuel, or no valid start state. -/
inductive SolveResult (σ : Type) where
  | solved (path : List σ) (s : PlannerState σ)
  | terminated (s : PlannerState σ)
  | outOfFuel (s : PlannerState σ)
  | noStart
deriving DecidableEq, Repr

/-- Modelled from the spec: the expansion loop of `GNAT::solve` (body not
in the source, GNAT.h line 95).  Spec sections 4.4 and 5: the termination
oracle is polled at the top of every iteration; each iteration then runs
to completion (sample, grow, validate, insert, goal check) before the next
poll.  `fuel` bounds the modelled run length. -/
def solveAux (env : SolveEnv σ) (gb : ℚ) : ℕ → ℕ → PlannerState σ → SolveResult σ
  | 0, _, s => .outOfFuel s
  | fuel + 1, i, s =>
    if env.ptc i then .terminated s
    else if solvedAt env gb s i then
      .solved (pathTo (step env gb s i).tree_ ((step env gb s i).tree_.length - 1))
        (step env gb s i)
    else solveAux env gb fuel (i + 1) (step env gb s i)

/-- Embeds `ompl::base::EuclideanProjection` (used at GNAT.h line 197): a
vector of `num_dims` real coordinates. -/
def EuclideanProjection (n : ℕ) : Type :=
  Fin n → ℝ

/-- Embeds the projection evaluator collaborator used by
`GNAT::projectedDistanceFunction` (GNAT.h lines 196-199): `getDimension`
is the field `dim` and `project` maps a state to a vector of that
dimension. -/
structure ProjectionEvaluator (σ : Type) where
  dim : ℕ
  project : σ → EuclideanProjection dim

/-- Embeds `boost::numeric::ublas::norm_2` as applied at GNAT.h line 200:
the Euclidean norm, the square root of the sum of squared coordinates. -/
noncomputable def norm_2 {n : ℕ} (v : EuclideanProjection n) : ℝ :=
  Real.sqrt (∑ i, v i ^ 2)

/-- Embeds `GNAT::projectedDistanceFunction` (GNAT.h lines 194-201):
project both motions' states with the active evaluator into vectors of
dimension `getDimension()`, subtract componentwise, take `norm_2`. -/
noncomputable def projectedDistanceFunction (pe : ProjectionEvaluator σ)
    (a b : Motion σ) : ℝ :=
  norm_2 (fun i => pe.project a.state i - pe.project b.state i)

/-- States the spec's wording for the projected distance: the Euclidean
norm (in the sense of `EuclideanSpace`) of the difference of the two
projections. -/
noncomputable def specProjectedDistance (pe : ProjectionEvaluator σ)
    (a b : Motion σ) : ℝ :=
  ‖(WithLp.equiv 2 (Fin pe.dim → ℝ)).symm (pe.project a.state) -
    (WithLp.equiv 2 (Fin pe.dim → ℝ)).symm (pe.project b.state)‖

/-- Modelled from the spec: the configuration errors of section 7 that
`GNAT::setup` (body not in the source, GNAT.h line 93) can raise. -/
inductive ConfigError where
  | noProjectionAvailable
  | degenerateDegreeBounds
deriving DecidableEq, Repr

/-- Modelled from the spec: the projection-related configuration consumed
by `GNAT::setup`: whether projected distance was requested at
construction, the evaluator installed via `setProjectionEvaluator`
(GNAT.h lines 135-138), and the state space's default projection. -/
structure SetupInput (π : Type) where
  useProjectedDistance : Bool
  projectionEvaluator : Option π
  defaultProjection : Option π

/-- Modelled from the spec: the projection-resolution step of
`GNAT::setup` (body not in the source, GNAT.h line 93).  Spec sections 4.2
and 7: if projected distance is selected, resolve the installed evaluator,
falling back to the state space's default; if neither exists, raise a
configuration error at setup. -/
def setupProjection (c : SetupInput π) : Except ConfigError (Option π) :=
  if c.useProjectedDistance then
    match c.projectionEvaluator with
    | some pe => .ok (some pe)
    | none =>
      match c.defaultProjection with
      | some pe => .ok (some pe)
      | none => .error .noProjectionAvailable
  else .ok c.projectionEvaluator

/-- Modelled from the spec: the planner state right after the single valid
start state has been inserted as the root. -/
def initState (start : σ) : PlannerState σ :=
  ⟨[⟨start, none⟩]⟩

/-- Modelled from the spec: `GNAT::solve` (body not in the source, GNAT.h
line 95).  A valid start state is inserted as the root and checked against
the goal (spec section 8 scenario: a start satisfying the goal yields the
single-node path), then the expansion loop runs from iteration 1; an
invalid start fails before the loop (spec section 4.4 edge cases). -/
def solve (env : SolveEnv σ) (gb : ℚ) (start : σ) (fuel : ℕ) : SolveResult σ :=
  if env.isValid start then
    if env.goalSatisfied start then
      .solved (pathTo (initState start).tree_ 0) (initState start)
    else solveAux env gb fuel 1 (initState start)
  else .noStart

/-- Modelled from the spec: a full planning session, `setup` followed by
`solve`; a configuration error raised by setup aborts before any planning
iteration runs (spec section 7). -/
def setupThenSolve (c : SetupInput π) (env : SolveEnv σ) (gb : ℚ) (start : σ)
    (fuel : ℕ) : Except ConfigError (SolveResult σ) :=
  match setupProjection c with
  | .error e => .error e
  | .ok _ => .ok (solve env gb start fuel)

/-- Arena well-formedness: every parent link points strictly below its
node (so parents are already present and no node is its own parent), and
a node has a null parent exactly when it is the root slot 0. -/
structure wfArena (t : List (Motion σ)) : Prop where
  parent_lt : ∀ (j : ℕ) (m : Motion σ) (p : ℕ),
    t[j]? = some m → m.parent = some p → p < j
  root_iff : ∀ (j : ℕ) (m : Motion σ),
    t[j]? = some m → (m.parent = none ↔ j = 0)

/-- One step of the parent walk: move to the parent index, staying put at
the root or outside the arena. -/
def parentStep (t : List (Motion σ)) (j : ℕ) : ℕ :=
  match t[j]? with
  | some m => m.parent.getD j
  | none => j

/-- The node at index `p` is the parent of the node at index `c`. -/
def isParentOf (t : List (Motion σ)) (p c : ℕ) : Prop :=
  ∃ m, t[c]? = some m ∧ m.parent = some p

/-- The node at index `a` is a proper ancestor of the node at index `c`:
the transitive closure of the parent relation. -/
def isAncestorOf (t : List (Motion σ)) (a c : ℕ) : Prop :=
  Relation.TransGen (fun x y => isParentOf t y x) c a

/-- Modelled from the spec: the planner states reachable by the planner's
operations: the setup-time insertion of a start root, a solve iteration,
or a direct `addMotion` whose parent is already present in the index (the
programming invariant of spec section 4.1). -/
inductive Reachable (env : SolveEnv σ) (gb : ℚ) : PlannerState σ → Prop where
  | init (start : σ) : Reachable env gb (initState start)
  | solveStep (s : PlannerState σ) (i : ℕ) :
      Reachable env gb s → Reachable env gb (step env gb s i)
  | addValid (s : PlannerState σ) (c : σ) (p : ℕ) :
      Reachable env gb s → p < s.tree_.length →
      Reachable env gb (addMotion s ⟨c, some p⟩)

/-- Concrete environment on `ℕ` states: everything valid, the near sampler
returns the successor state, no goal sampler, the oracle trips after
iteration 1. -/
def envW : SolveEnv ℕ where
  isValid := fun _ => true
  segmentValid := fun _ _ => true
  goalSatisfied := fun _ => false
  goalAvailable := false
  sampleGoal := fun _ => 0
  sampleNear := fun s _ => some (s + 1)
  sampleBiased := fun _ => 0
  uniform01 := fun _ => 0
  ptc := fun i => decide (1 < i)

/-- Concrete environment with an available goal sampler and uniform draws
of one half. -/
def envGoalW : SolveEnv ℕ :=
  { envW with goalAvailable := true, uniform01 := fun _ => 1/2 }

/-- Concrete environment whose near sampler is always exhausted and whose
oracle never fires. -/
def envRejW : SolveEnv ℕ :=
  { envW with sampleNear := fun _ _ => none, ptc := fun _ => false }

/-- Concrete environment whose goal test accepts every state. -/
def envC5W : SolveEnv ℕ :=
  { envW with goalSatisfied := fun _ => true }

/-- Concrete parameter record. -/
def paramsW : Params :=
  ⟨1/20, 1/2⟩

/-- Concrete setup input requesting projected distance with no evaluator
installed and no default projection. -/
def setupW : SetupInput Unit :=
  ⟨true, none, none⟩

/-- C10: `setRange` stores any value `d`, including zero and negative
values, without validation; `getRange` then returns exactly `d`, and no
other member of the parameter record is modified. -/
theorem range_accessor_roundtrip (s : Params) (d : ℚ) :
    getRange (setRange s d) = d ∧ (setRange s d).goalBias_ = s.goalBias_ := by
  constructor <;> rfl

/-- C8, counterexample: passing 2 to `setGoalBias` makes `getGoalBias`
return 2, which does not lie in [0,1]; the setter performs no clamping. -/
theorem goal_bias_range_cex :
    getGoalBias (setGoalBias paramsW 2) = 2 ∧
    ¬ (0 ≤ getGoalBias (setGoalBias paramsW 2) ∧
        getGoalBias (setGoalBias paramsW 2) ≤ 1) := by
  refine ⟨rfl, ?_⟩
  intro h
  have h2 := h.2
  norm_num [getGoalBias, setGoalBias, paramsW] at h2

/-- C8, amended: `setGoalBias` stores its argument unvalidated, so the
goal bias observed via `getGoalBias` equals the passed value exactly; it
lies in [0,1] whenever the passed value respects the documented
precondition of lying in [0,1]. -/
theorem goal_bias_range (s : Params) (b : ℚ) :
    getGoalBias (setGoalBias s b) = b ∧
    (0 ≤ b → b ≤ 1 →
      0 ≤ getGoalBias (setGoalBias s b) ∧ getGoalBias (setGoalBias s b) ≤ 1) := by
  refine ⟨rfl, fun h0 h1 => ⟨h0, h1⟩⟩

/-- Witness for C8's amended theorem at the in-range value 1/20. -/
theorem goal_bias_range_witness :
    getGoalBias (setGoalBias paramsW (1/20)) = 1/20 ∧
    (0 ≤ getGoalBias (setGoalBias paramsW (1/20)) ∧
      getGoalBias (setGoalBias paramsW (1/20)) ≤ 1) :=
  ⟨(goal_bias_range paramsW (1/20)).1,
    (goal_bias_range paramsW (1/20)).2 (by norm_num) (by norm_num)⟩

/-- C5: with one valid start configuration whose goal test already holds,
`solve` returns success at the first goal check with the single-node path
`[start]`. -/
theorem trivial_goal_scenario (env : SolveEnv σ) (gb : ℚ) (start : σ) (fuel : ℕ)
    (hv : env.isValid start = true) (hg : env.goalSatisfied start = true) :
    solve env gb start fuel = .solved [start] (initState start) := by
  simp [solve, hv, hg, pathTo, pathToAux, initState]

/-- Witness for C5 in the all-accepting concrete environment. -/
theorem trivial_goal_scenario_witness :
    solve envC5W 0 0 5 = .solved [0] (initState 0) :=
  trivial_goal_scenario envC5W 0 0 5 rfl rfl

/-- C7: when projected distance is requested but no projection evaluator
is installed and the state space offers no default, setup raises the
configuration error, and a full session aborts with that error before any
planning iteration runs. -/
theorem projection_fail_fast (c : SetupInput π) (env : SolveEnv σ) (gb : ℚ)
    (start : σ) (fuel : ℕ)
    (hu : c.useProjectedDistance = true) (he : c.projectionEvaluator = none)
    (hd : c.defaultProjection = none) :
    setupProjection c = .error .noProjectionAvailable ∧
    setupThenSolve c env gb start fuel = .error .noProjectionAvailable := by
  have h1 : setupProjection c = .error .noProjectionAvailable := by
    simp [setupProjection, hu, he, hd]
  exact ⟨h1, by simp [setupThenSolve, h1]⟩

/-- Witness for C7 at the concrete setup input. -/
theorem projection_fail_fast_witness :
    setupProjection setupW = .error .noProjectionAvailable ∧
    setupThenSolve setupW envW 0 0 3 = .error .noProjectionAvailable :=
  projection_fail_fast setupW envW 0 0 3 rfl rfl rfl

/-- C2: without an available goal sampler, no iteration's seed selection
draws from the goal region, whatever the goal bias; with an available
sampler, goal bias 1 and uniform draws below 1 (as `uniform01` produces),
every seed-selection step attempts a goal-directed sample. -/
theorem goal_bias_law (env : SolveEnv σ) :
    (env.goalAvailable = false → ∀ (gb : ℚ) (i : ℕ), goalAttempt env gb i = false) ∧
    (env.goalAvailable = true → (∀ i, env.uniform01 i < 1) →
      ∀ (s : PlannerState σ) (i : ℕ),
        candidateAt env 1 s i = some (env.sampleGoal i)) := by
  constructor
  · intro h gb i
    simp [goalAttempt, h]
  · intro h hu s i
    have hga : goalAttempt env 1 i = true := by
      simp [goalAttempt, h, hu i]
    simp [candidateAt, hga]

/-- Witness for C2: one no-sampler environment where a goal attempt is
refused at bias 3/4, and one sampler environment where bias 1 forces the
goal-directed candidate. -/
theorem goal_bias_law_witness :
    goalAttempt envW (3/4) 5 = false ∧
    candidateAt envGoalW 1 (initState 0) 2 = some (envGoalW.sampleGoal 2) :=
  ⟨(goal_bias_law envW).1 rfl (3/4) 5,
    (goal_bias_law envGoalW).2 rfl (fun i => by norm_num [envGoalW, envW])
      (initState 0) 2⟩

/-- One iteration appends exactly the motion it validated, or nothing. -/
theorem step_tree (env : SolveEnv σ) (gb : ℚ) (s : PlannerState σ) (i : ℕ) :
    (step env gb s i).tree_ = s.tree_ ++ (stepResult env gb s i).toList := by
  unfold step
  cases h : stepResult env gb s i <;> simp [addMotion]

/-- Unfolding lemma for a run of successive iterations. -/
theorem runFrom_succ (env : SolveEnv σ) (gb : ℚ) (j n : ℕ) (s : PlannerState σ) :
    runFrom env gb j (n + 1) s = runFrom env gb (j + 1) n (step env gb s j) :=
  rfl

/-- A run of iterations appends exactly the motions inserted by its
iterations, in order. -/
theorem runFrom_tree (env : SolveEnv σ) (gb : ℚ) :
    ∀ (n j : ℕ) (s : PlannerState σ),
      (runFrom env gb j n s).tree_ = s.tree_ ++ insertedFrom env gb j n s := by
  intro n
  induction n with
  | zero => intro j s; simp [runFrom, insertedFrom]
  | succ n ih =>
    intro j s
    rw [runFrom_succ, ih (j + 1) (step env gb s j), step_tree]
    simp only [insertedFrom, List.append_assoc]

/-- Splitting a run of `m + n` iterations at position `m`. -/
theorem runFrom_add (env : SolveEnv σ) (gb : ℚ) :
    ∀ (m n j : ℕ) (s : PlannerState σ),
      runFrom env gb j (m + n) s =
        runFrom env gb (j + m) n (runFrom env gb j m s) := by
  intro m
  induction m with
  | zero => intro n j s; simp [runFrom]
  | succ m ih =>
    intro n j s
    have h1 : m + 1 + n = (m + n) + 1 := by omega
    rw [h1, runFrom_succ, ih n (j + 1) (step env gb s j)]
    rw [show j + 1 + m = j + (m + 1) from by omega]
    rfl

/-- A solve run whose oracle stays quiet for `n` polls, fires at the next
poll, and finds no solution meanwhile, exits by termination with the state
of exactly `n` complete iterations. -/
theorem solveAux_run (env : SolveEnv σ) (gb : ℚ) :
    ∀ (n fuel j : ℕ) (s : PlannerState σ),
      (∀ m, m < n → env.ptc (j + m) = false) →
      env.ptc (j + n) = true →
      (∀ m, m < n → solvedAt env gb (runFrom env gb j m s) (j + m) = false) →
      n < fuel →
      solveAux env gb fuel j s = .terminated (runFrom env gb j n s) := by
  intro n
  induction n with
  | zero =>
    intro fuel j s hp ht hs hf
    obtain ⟨f, rfl⟩ : ∃ f, fuel = f + 1 := ⟨fuel - 1, by omega⟩
    have hj : env.ptc j = true := by simpa using ht
    simp [solveAux, hj, runFrom]
  | succ n ih =>
    intro fuel j s hp ht hs hf
    obtain ⟨f, rfl⟩ : ∃ f, fuel = f + 1 := ⟨fuel - 1, by omega⟩
    have hpj : env.ptc j = false := by simpa using hp 0 (by omega)
    have hsj : solvedAt env gb s j = false := by
      simpa [runFrom] using hs 0 (by omega)
    have hstep : solveAux env gb (f + 1) j s =
        solveAux env gb f (j + 1) (step env gb s j) := by
      simp [solveAux, hpj, hsj]
    have h1 : ∀ m, m < n → env.ptc (j + 1 + m) = false := by
      intro m hm
      have := hp (m + 1) (by omega)
      rwa [show j + (m + 1) = j + 1 + m from by omega] at this
    have h2 : env.ptc (j + 1 + n) = true := by
      rwa [show j + (n + 1) = j + 1 + n from by omega] at ht
    have h3 : ∀ m, m < n →
        solvedAt env gb (runFrom env gb (j + 1) m (step env gb s j))
          (j + 1 + m) = false := by
      intro m hm
      have := hs (m + 1) (by omega)
      rw [runFrom_succ] at this
      rwa [show j + (m + 1) = j + 1 + m from by omega] at this
    rw [hstep, ih f (j + 1) (step env gb s j) h1 h2 h3 (by omega)]
    rfl

/-- C1: when the termination oracle trips at iteration `k` (all polls
through iteration `k` see false, every later poll sees true) and no
iteration up to `k` solves the problem, `solve`'s loop exits by
termination with a tree holding the initial motions plus exactly the
motions inserted by the complete iterations `1..k` — never a partial
node. -/
theorem termination_atomicity (env : SolveEnv σ) (gb : ℚ) (s₀ : PlannerState σ)
    (k fuel : ℕ)
    (hptc : ∀ i, env.ptc i = true ↔ k < i)
    (hsol : ∀ i, 1 ≤ i → i ≤ k →
      solvedAt env gb (runFrom env gb 1 (i - 1) s₀) i = false)
    (hfuel : k < fuel) :
    solveAux env gb fuel 1 s₀ = .terminated (runFrom env gb 1 k s₀) ∧
    (runFrom env gb 1 k s₀).tree_ = s₀.tree_ ++ insertedFrom env gb 1 k s₀ := by
  refine ⟨?_, runFrom_tree env gb k 1 s₀⟩
  apply solveAux_run env gb k fuel 1 s₀
  · intro m hm
    have hne : ¬ env.ptc (1 + m) = true := fun h =>
      absurd ((hptc (1 + m)).mp h) (by omega)
    simpa using hne
  · exact (hptc (1 + k)).mpr (by omega)
  · intro m hm
    have := hsol (m + 1) (by omega) (by omega)
    rw [show m + 1 - 1 = m from by omega] at this
    rwa [show m + 1 = 1 + m from by omega] at this
  · exact hfuel

/-- Witness for C1: the oracle of `envW` trips at iteration 1, and the
loop exits with the root plus the single motion of iteration 1. -/
theorem termination_atomicity_witness :
    solveAux envW 0 3 1 (initState 0) =
      .terminated (runFrom envW 0 1 1 (initState 0)) ∧
    (runFrom envW 0 1 1 (initState 0)).tree_ =
      (initState 0).tree_ ++ insertedFrom envW 0 1 1 (initState 0) :=
  termination_atomicity envW 0 (initState 0) 1 3
    (fun i => by simp [envW])
    (fun i h1 h2 => by
      have hi : i = 1 := by omega
      subst hi
      decide)
    (by omega)

/-- C4: within one invocation of the loop, the tree after any later
iteration extends the tree after any earlier iteration as a list prefix —
the index size is non-decreasing and no node is ever removed. -/
theorem monotonic_growth (env : SolveEnv σ) (gb : ℚ) (j : ℕ) (s : PlannerState σ)
    (m n : ℕ) (h : m ≤ n) :
    (runFrom env gb j m s).tree_ <+: (runFrom env gb j n s).tree_ ∧
    (runFrom env gb j m s).tree_.length ≤ (runFrom env gb j n s).tree_.length := by
  obtain ⟨d, rfl⟩ := Nat.exists_eq_add_of_le h
  rw [runFrom_add env gb m d j s]
  have hp : (runFrom env gb j m s).tree_ <+:
      (runFrom env gb (j + m) d (runFrom env gb j m s)).tree_ := by
    rw [runFrom_tree env gb d (j + m) (runFrom env gb j m s)]
    exact ⟨_, rfl⟩
  exact ⟨hp, hp.length_le⟩

/-- Witness for C4 comparing iterations 1 and 3 of the concrete run. -/
theorem monotonic_growth_witness :
    (runFrom envW 0 1 1 (initState 0)).tree_ <+:
      (runFrom envW 0 1 3 (initState 0)).tree_ ∧
    (runFrom envW 0 1 1 (initState 0)).tree_.length ≤
      (runFrom envW 0 1 3 (initState 0)).tree_.length :=
  monotonic_growth envW 0 1 (initState 0) 1 3 (by omega)

/-- C9: an iteration whose candidate fails validation (sampler exhausted,
invalid candidate state, or invalid connecting segment) inserts nothing,
leaves the planner state exactly as it was, does not solve, and the loop
continues at the next iteration with the termination oracle polled
again. -/
theorem rejected_iteration_frame (env : SolveEnv σ) (gb : ℚ) (s : PlannerState σ)
    (i fuel : ℕ) (seed : Motion σ)
    (hseed : seedAt env s i = some seed)
    (hfail : candidateAt env gb s i = none ∨
      ∃ c, candidateAt env gb s i = some c ∧
        (env.isValid c = false ∨ env.segmentValid seed.state c = false)) :
    stepResult env gb s i = none ∧ step env gb s i = s ∧
    solvedAt env gb s i = false ∧
    (env.ptc i = false →
      solveAux env gb (fuel + 1) i s = solveAux env gb fuel (i + 1) s) := by
  have hsr : stepResult env gb s i = none := by
    unfold stepResult
    rw [hseed]
    rcases hfail with hc | ⟨c, hc, hv⟩
    · rw [hc]
    · rw [hc]
      have hb : (env.isValid c && env.segmentValid seed.state c) = false := by
        rcases hv with hv | hv <;> simp [hv]
      simp [hb]
  have hst : step env gb s i = s := by simp [step, hsr]
  have hsv : solvedAt env gb s i = false := by simp [solvedAt, hsr]
  refine ⟨hsr, hst, hsv, fun hptc => ?_⟩
  simp [solveAux, hptc, hsv, hst]

/-- Witness for C9: in the exhausted-sampler environment, iteration 1
mutates nothing and the loop moves on to iteration 2. -/
theorem rejected_iteration_frame_witness :
    stepResult envRejW 0 (initState 0) 1 = none ∧
    step envRejW 0 (initState 0) 1 = initState 0 ∧
    solveAux envRejW 0 3 1 (initState 0) = solveAux envRejW 0 2 2 (initState 0) := by
  have h := rejected_iteration_frame envRejW 0 (initState 0) 1 2 ⟨0, none⟩
    rfl (Or.inl rfl)
  exact ⟨h.1, h.2.1, h.2.2.2 rfl⟩

/-- The single-root arena created for the start state is well-formed. -/
theorem wfArena_init (start : σ) : wfArena (initState start).tree_ := by
  constructor
  · intro j m p hj hp
    cases j with
    | zero =>
      simp only [initState] at hj
      injection hj with h
      rw [← h] at hp
      have hc : (none : Option ℕ) = some p := hp
      exact absurd hc (by simp)
    | succ j => simp [initState] at hj
  · intro j m hj
    cases j with
    | zero =>
      simp only [initState] at hj
      injection hj with h
      rw [← h]
      simp
    | succ j => simp [initState] at hj

/-- Appending a motion whose parent index lies inside the arena preserves
well-formedness. -/
theorem wfArena_append (t : List (Motion σ)) (c : σ) (p : ℕ)
    (hwf : wfArena t) (hp : p < t.length) :
    wfArena (t ++ [⟨c, some p⟩]) := by
  constructor
  · intro j m q hj hq
    rcases lt_trichotomy j t.length with hlt | heq | hgt
    · rw [List.getElem?_append_left hlt] at hj
      exact hwf.parent_lt j m q hj hq
    · subst heq
      rw [List.getElem?_concat_length] at hj
      injection hj with h
      rw [← h] at hq
      have hq2 : (some p : Option ℕ) = some q := hq
      injection hq2 with h2
      omega
    · rw [List.getElem?_eq_none (by simp; omega)] at hj
      exact absurd hj (by simp)
  · intro j m hj
    rcases lt_trichotomy j t.length with hlt | heq | hgt
    · rw [List.getElem?_append_left hlt] at hj
      exact hwf.root_iff j m hj
    · subst heq
      rw [List.getElem?_concat_length] at hj
      injection hj with h
      rw [← h]
      constructor
      · intro hnone
        have hc : (some p : Option ℕ) = none := hnone
        exact absurd hc (by simp)
      · intro h0
        omega
    · rw [List.getElem?_eq_none (by simp; omega)] at hj
      exact absurd hj (by simp)

/-- A motion produced by `stepResult` carries as parent the seed's index,
which lies inside the arena it was drawn from. -/
theorem stepResult_parent (env : SolveEnv σ) (gb : ℚ) (s : PlannerState σ)
    (i : ℕ) (m : Motion σ) (hm : stepResult env gb s i = some m) :
    m.parent = some (seedIndexAt env s i) ∧
    seedIndexAt env s i < s.tree_.length := by
  cases hs : seedAt env s i with
  | none =>
    have hn : stepResult env gb s i = none := by simp [stepResult, hs]
    rw [hn] at hm
    exact absurd hm (by simp)
  | some seed =>
    have hlt : seedIndexAt env s i < s.tree_.length := by
      unfold seedAt at hs
      obtain ⟨h, -⟩ := List.getElem?_eq_some.mp hs
      exact h
    cases hc : candidateAt env gb s i with
    | none =>
      have hn : stepResult env gb s i = none := by simp [stepResult, hs, hc]
      rw [hn] at hm
      exact absurd hm (by simp)
    | some c =>
      by_cases hv : (env.isValid c && env.segmentValid seed.state c) = true
      · have he : stepResult env gb s i =
            some ⟨c, some (seedIndexAt env s i)⟩ := by
          simp [stepResult, hs, hc, hv]
        rw [he] at hm
        injection hm with h
        rw [← h]
        exact ⟨rfl, hlt⟩
      · have hn : stepResult env gb s i = none := by
          simp [stepResult, hs, hc, hv]
        rw [hn] at hm
        exact absurd hm (by simp)

/-- One solve iteration preserves arena well-formedness. -/
theorem wfArena_step (env : SolveEnv σ) (gb : ℚ) (s : PlannerState σ) (i : ℕ)
    (hwf : wfArena s.tree_) : wfArena (step env gb s i).tree_ := by
  cases hm : stepResult env gb s i with
  | none =>
    have hts : step env gb s i = s := by simp [step, hm]
    rwa [hts]
  | some m =>
    obtain ⟨hp, hlt⟩ := stepResult_parent env gb s i m hm
    have hts : step env gb s i = addMotion s m := by simp [step, hm]
    rw [hts]
    cases m with
    | mk st par =>
      have hp2 : par = some (seedIndexAt env s i) := hp
      subst hp2
      exact wfArena_append s.tree_ st (seedIndexAt env s i) hwf hlt

/-- Every state reachable by the planner's operations has a well-formed
arena. -/
theorem wfArena_reachable (env : SolveEnv σ) (gb : ℚ) (s : PlannerState σ)
    (h : Reachable env gb s) : wfArena s.tree_ := by
  induction h with
  | init start => exact wfArena_init start
  | solveStep s i _ ih => exact wfArena_step env gb s i ih
  | addValid s c p _ hp ih => exact wfArena_append s.tree_ c p ih hp

/-- On a well-formed arena the parent walk from any live node reaches the
root slot 0 within any allowance of at least the node's index. -/
theorem parentStep_reaches_root (t : List (Motion σ)) (hwf : wfArena t) :
    ∀ (n j : ℕ), j < t.length → j ≤ n → (parentStep t)^[n] j = 0 := by
  intro n
  induction n with
  | zero =>
    intro j hj hn
    have h0 : j = 0 := by omega
    simp [h0]
  | succ n ih =>
    intro j hj hn
    rw [Function.iterate_succ_apply]
    by_cases h0 : j = 0
    · subst h0
      obtain ⟨m, hm⟩ : ∃ m, t[0]? = some m :=
        ⟨_, List.getElem?_eq_getElem hj⟩
      have hpar : m.parent = none := (hwf.root_iff 0 m hm).mpr rfl
      have hroot : parentStep t 0 = 0 := by simp [parentStep, hm, hpar]
      rw [hroot]
      exact ih 0 hj (by omega)
    · obtain ⟨m, hm⟩ : ∃ m, t[j]? = some m :=
        ⟨_, List.getElem?_eq_getElem hj⟩
      cases hpar : m.parent with
      | none => exact absurd ((hwf.root_iff j m hm).mp hpar) h0
      | some p =>
        have hpj : p < j := hwf.parent_lt j m p hm hpar
        have hps : parentStep t j = p := by simp [parentStep, hm, hpar]
        rw [hps]
        exact ih p (by omega) (by omega)

/-- On a well-formed arena every proper ancestor sits strictly below its
descendant. -/
theorem ancestor_lt (t : List (Motion σ)) (hwf : wfArena t) :
    ∀ a c, isAncestorOf t a c → a < c := by
  intro a c h
  unfold isAncestorOf at h
  induction h with
  | single h1 =>
    obtain ⟨m, hm, hp⟩ := h1
    exact hwf.parent_lt _ m _ hm hp
  | tail _ h2 ih =>
    obtain ⟨m, hm, hp⟩ := h2
    exact lt_trans (hwf.parent_lt _ m _ hm hp) ih

/-- C3: in every state reachable by the planner's operations, every parent
link points to a node already present and strictly older (never the node
itself), slot 0 is the unique node with a null parent, the parent walk
from any node reaches the root within as many steps as there are nodes,
and no node is its own ancestor. -/
theorem acyclicity_invariant (env : SolveEnv σ) (gb : ℚ) (s : PlannerState σ)
    (hr : Reachable env gb s) :
    (∀ (j : ℕ) (m : Motion σ) (p : ℕ), s.tree_[j]? = some m →
      m.parent = some p → p < j ∧ p < s.tree_.length) ∧
    (∀ (j : ℕ) (m : Motion σ), s.tree_[j]? = some m →
      (m.parent = none ↔ j = 0)) ∧
    (∀ j, j < s.tree_.length → (parentStep s.tree_)^[s.tree_.length] j = 0) ∧
    (∀ j, ¬ isAncestorOf s.tree_ j j) := by
  have hwf := wfArena_reachable env gb s hr
  refine ⟨?_, hwf.root_iff, ?_, ?_⟩
  · intro j m p hj hp
    have h1 := hwf.parent_lt j m p hj hp
    have h2 : j < s.tree_.length := by
      by_contra hcon
      rw [List.getElem?_eq_none (by omega)] at hj
      exact absurd hj (by simp)
    exact ⟨h1, by omega⟩
  · intro j hj
    exact parentStep_reaches_root s.tree_ hwf s.tree_.length j hj (by omega)
  · intro j hanc
    exact absurd (ancestor_lt s.tree_ hwf j j hanc) (lt_irrefl j)

/-- C6: `projectedDistanceFunction` equals the Euclidean norm (the norm of
`EuclideanSpace`) of the difference of the two states' projections, both
computed by the active projection evaluator into vectors of the
evaluator's dimension. -/
theorem projected_distance_def (pe : ProjectionEvaluator σ) (a b : Motion σ) :
    projectedDistanceFunction pe a b = specProjectedDistance pe a b := by
  unfold projectedDistanceFunction specProjectedDistance norm_2
  rw [← WithLp.equiv_symm_sub, EuclideanSpace.norm_eq]
  congr 1
  apply Finset.sum_congr rfl
  intro i _
  rw [WithLp.equiv_symm_pi_apply, Real.norm_eq_abs, sq_abs]
  rfl

/-- Witness for C3 on the state after one concrete solve iteration: the
parent walk from node 1 reaches the root in two steps and node 1 is not
its own ancestor. -/
theorem acyclicity_invariant_witness :
    (parentStep (step envW 0 (initState 0) 1).tree_)^[
        (step envW 0 (initState 0) 1).tree_.length] 1 = 0 ∧
    ¬ isAncestorOf (step envW 0 (initState 0) 1).tree_ 1 1 := by
  have h := acyclicity_invariant envW 0 (step envW 0 (initState 0) 1)
    (Reachable.solveStep (initState 0) 1 (Reachable.init 0))
  exact ⟨h.2.2.1 1 (by decide), h.2.2.2 1⟩

end GNAT
